import Mathlib

/-!
Verification of the viewport text-layout engine of the `edoc` terminal pager.

The development shallowly embeds the Rust sources:
  * `src/contents.rs`  — `Contents`, `Contents::split_string_by_width`,
    `Contents::update_contents`, the cursor clamp in `Contents::print`;
  * `src/main.rs`      — the free function `split_string_by_width`,
    `get_editor_contents`, `get_display_area`, and the event-dispatch loop;
  * `src/status_bar.rs` — `StatusBarItem`, `StatusBar::add_item`.

Strings are modelled as `List Char` (Rust iterates `char`s).  Fallible code
(`unwrap` on `Option`, `usize`/`u16` arithmetic that panics on under/overflow
in debug builds, `todo!()` arms) is modelled with `Option`, `none` meaning a
panic.  `u16` casts (`as u16`) are modelled by `% 65536`.
-/

set_option autoImplicit false

namespace Edoc

/-- Modelled from the spec (§4.1 WidthClassifier): the repository delegates
per-character display width to the external `unicode-width` crate
(`UnicodeWidthChar::width`), whose table is not part of `src/`.  Following the
spec, a control character has no defined width (`none`); combining marks are
zero columns; East-Asian wide/fullwidth characters occupy two columns; every
other character occupies one.  The wide ranges below cover the main East-Asian
blocks (Hangul Jamo, CJK, Hiragana/Katakana, fullwidth forms, …); all claims
proved below depend only on the shape `none`/`some 0`/`some 1`/`some 2`. -/
def charWidth? (c : Char) : Option Nat :=
  let n := c.toNat
  if n < 0x20 ∨ (0x7F ≤ n ∧ n ≤ 0x9F) then none
  else if 0x300 ≤ n ∧ n ≤ 0x36F then some 0
  else if (0x1100 ≤ n ∧ n ≤ 0x115F) ∨ (0x2E80 ≤ n ∧ n ≤ 0x303E) ∨
          (0x3041 ≤ n ∧ n ≤ 0x33FF) ∨ (0x3400 ≤ n ∧ n ≤ 0x4DBF) ∨
          (0x4E00 ≤ n ∧ n ≤ 0x9FFF) ∨ (0xA000 ≤ n ∧ n ≤ 0xA4CF) ∨
          (0xAC00 ≤ n ∧ n ≤ 0xD7A3) ∨ (0xF900 ≤ n ∧ n ≤ 0xFAFF) ∨
          (0xFE30 ≤ n ∧ n ≤ 0xFE4F) ∨ (0xFF00 ≤ n ∧ n ≤ 0xFF60) ∨
          (0xFFE0 ≤ n ∧ n ≤ 0xFFE6) then some 2
  else some 1

/-- Display width of a string, counting undefined-width characters as zero
columns (`UnicodeWidthStr::width` semantics, used on `current_string` in the
`main.rs` wrapper and to measure stripped segments). -/
def dispWidth (l : List Char) : Nat :=
  (l.map fun c => (charWidth? c).getD 0).sum

/-- Contents::is_escape (src/contents.rs lines 135-137): true exactly for the
ESC control character 0x1B. -/
def is_escape (c : Char) : Bool :=
  c = '\x1b'

/-- One step of the escape-sequence recogniser: ESC always (re)enters the
in-escape state; inside an escape the first `'m'` leaves it; outside, a
non-ESC character stays outside.  This is the two-state machine that
`split_string_by_width` (contents.rs lines 88-104) tracks with its
`is_ansi_escape_sequence` flag. -/
def escStep (b : Bool) (c : Char) : Bool :=
  if c = '\x1b' then true
  else if b then (if c = 'm' then false else true)
  else false

/-- Escape-recogniser state after scanning a string from state `b`. -/
def escState (b : Bool) (l : List Char) : Bool :=
  l.foldl escStep b

/-- Remove escape sequences: drop every character scanned while the
state machine is in an escape (from each ESC up to and including the
terminating `'m'`), keep the rest. -/
def stripGo (b : Bool) : List Char → List Char
  | [] => []
  | c :: rest =>
    if c = '\x1b' then stripGo true rest
    else if b then stripGo (if c = 'm' then false else true) rest
    else c :: stripGo false rest

/-- Remove escape sequences from a string (starting outside any escape). -/
def stripEscapes (l : List Char) : List Char :=
  stripGo false l

/-- Loop of `Contents::split_string_by_width` (src/contents.rs lines 82-121).
`cur` is `current_line`, `cw` is `current_width`, `esc` is
`is_ansi_escape_sequence`.  The Rust loop pushes flushed segments onto an
accumulator and finally pushes the remaining `current_line`; here the flushed
segment is consed in front of the recursive result, which yields the same
list.  `none` models the `c.width().unwrap()` panic on a character with no
defined width encountered outside an escape sequence (line 106 / 115). -/
def splitLoop (w : Nat) : List Char → List Char → Nat → Bool → Option (List (List Char))
  | [], cur, _cw, _esc => some [cur]
  | c :: rest, cur, cw, esc =>
    if c = '\x1b' then
      -- lines 91-95: enter escape, push, no width check
      splitLoop w rest (cur ++ [c]) cw true
    else if esc then
      -- lines 97-104: in escape, push; a terminating 'm' leaves the state
      splitLoop w rest (cur ++ [c]) cw (if c = 'm' then false else true)
    else
      match charWidth? c with
      | none => none
      | some wc =>
        if w < cw + wc then
          -- lines 106-111: flush current_line strictly before placing c
          (splitLoop w rest [c] wc false).map fun r => cur :: r
        else
          -- lines 113-115: append c, add its width
          splitLoop w rest (cur ++ [c]) (cw + wc) false

/-- Contents::split_string_by_width (src/contents.rs lines 82-121).  The
`&self` receiver is unused apart from `is_escape`, so it is omitted.  The
`width: u16` parameter is a `Nat` below 2^16 at every call site (the caller
casts with `as u16`, modelled there). -/
def splitStringByWidth (s : List Char) (w : Nat) : Option (List (List Char)) :=
  splitLoop w s [] 0 false

/-- The conditional push of the `main.rs` wrapper (lines 360-362): the
character is appended only when it still fits the budget; otherwise it is
silently discarded. -/
def mainPush (w : Nat) (cur : List Char) (c : Char) (wc : Nat) : List Char :=
  if dispWidth cur + wc ≤ w then cur ++ [c] else cur

/-- Loop of the free function `split_string_by_width` (src/main.rs lines
347-380).  The Rust loop walks indices `i` with a one-character lookahead
`value.chars().nth(i + 1)`; structurally, `rest = []` is `i == count - 1` and
the head of `rest` is the lookahead.  Characters with no defined width are
skipped (`continue`) — they are never pushed, so escape sequences are not
recognised here; a character that does not fit is silently not pushed.  There
is no flush after the loop, so a pending `current_string` can be discarded. -/
def mainLoop (w : Nat) : List Char → List Char → List (List Char)
  | [], _cur => []
  | c :: rest, cur =>
    match charWidth? c with
    | none => mainLoop w rest cur
    | some wc =>
      let cur' := mainPush w cur c wc
      if dispWidth cur' = w ∨ rest = [] then
        cur' :: mainLoop w rest []
      else
        match rest with
        | [] => []
        | d :: _ =>
          match charWidth? d with
          | none => mainLoop w rest cur'
          | some wd =>
            if w < dispWidth cur' + wd then
              cur' :: mainLoop w rest []
            else
              mainLoop w rest cur'

/-- Free function split_string_by_width (src/main.rs lines 347-380), the
wrapper actually invoked by `get_editor_contents`. -/
def splitStringByWidthMain (s : List Char) (w : Nat) : List (List Char) :=
  mainLoop w s []

example : splitStringByWidth "Hello, world!".data 5 =
    some ["Hello".data, ", wor".data, "ld!".data] := by decide

example : splitStringByWidth "Hello, 世界!".data 5 =
    some ["Hello".data, ", 世".data, "界!".data] := by decide

example : splitStringByWidth "\x1b[31mHello, world!\x1b[0m".data 5 =
    some ["\x1b[31mHello".data, ", wor".data, "ld!\x1b[0m".data] := by decide

example : splitStringByWidth "\x1b[31mあい\x1b[0mう".data 5 =
    some ["\x1b[31mあい\x1b[0m".data, "う".data] := by decide

example : splitStringByWidthMain "Hello, world!".data 5 =
    ["Hello".data, ", wor".data, "ld!".data] := by decide

example : splitStringByWidthMain "Hello, 世界!".data 5 =
    ["Hello".data, ", 世".data, "界!".data] := by decide

/-- Strip one trailing carriage return (Rust's `str::lines` treats `\r\n` as a
line ending). -/
def stripCR (l : List Char) : List Char :=
  if l.getLast? = some '\r' then l.dropLast else l

/-- Split at every newline; `cur` accumulates the current piece.  Pieces
terminated by a `'\n'` get a trailing `'\r'` stripped; the final,
unterminated piece is kept verbatim. -/
def splitLinesAux : List Char → List Char → List (List Char)
  | [], cur => [cur]
  | c :: rest, cur =>
    if c = '\n' then stripCR cur :: splitLinesAux rest []
    else splitLinesAux rest (cur ++ [c])

/-- Rust's `str::lines()`: newline-delimited pieces, a final line ending being
optional (so the empty string has no lines, and a trailing `'\n'` does not
produce a trailing empty line). -/
def rustLines (s : List Char) : List (List Char) :=
  let ps := splitLinesAux s []
  match ps.getLast? with
  | some [] => ps.dropLast
  | _ => ps

example : rustLines "".data = [] := by decide

example : rustLines "a\nb".data = ["a".data, "b".data] := by decide

example : rustLines "a\nb\n".data = ["a".data, "b".data] := by decide

example : rustLines "a\n\n".data = ["a".data, []] := by decide

/-- Checked `usize`/`u16` subtraction: `none` models the debug-build panic on
underflow (release builds wrap, which the spec calls out as unguarded). -/
def checkedSub (a b : Nat) : Option Nat :=
  if b ≤ a then some (a - b) else none

/-- Decimal digit count of `n`, i.e. `n.to_string().len()`. -/
def digitCount (n : Nat) : Nat :=
  (Nat.toDigits 10 n).length

/-- SplitLine (src/contents.rs lines 14-21).  `line_number` and `line_index`
are `u16` in the source; they are modelled as `Nat` (the `i as u16` /
`line_number += 1` narrowing is unobservable below 2^16 segments, and no
claim concerns larger layouts of this kind). -/
structure SplitLine where
  line_number : Nat
  line_index : Nat
  contents : List Char
deriving DecidableEq

/-- Contents (src/contents.rs lines 23-40).  All numeric fields are `u16` in
the source, modelled as `Nat`; the one place a length is cast back to `u16`
(`self.contents.len() as u16` in `print`) is modelled explicitly with
`% 65536`. -/
structure Contents where
  original_contents : List Char
  contents : List SplitLine
  width : Nat
  height : Nat
  x_start : Nat
  y_start : Nat
  cursor_x : Nat
  cursor_y : Nat
deriving DecidableEq

/-- Contents::new (src/contents.rs lines 44-63): fresh engine with an empty
segment list. -/
def Contents.new (original_contents : List Char) (width height x_start y_start cursor_x cursor_y : Nat) : Contents :=
  ⟨original_contents, [], width, height, x_start, y_start, cursor_x, cursor_y⟩

/-- Per-line loop of `Contents::update_contents` (src/contents.rs lines
247-262): wrap each logical line (1-indexed `ln`) and tag each piece with its
0-based index within the line.  `none` propagates a wrapper panic. -/
def buildSegs (w : Nat) : List (List Char) → Nat → Option (List SplitLine)
  | [], _ => some []
  | l :: ls, ln =>
    match splitStringByWidth l w with
    | none => none
    | some pieces =>
      match buildSegs w ls (ln + 1) with
      | none => none
      | some rest =>
        some ((pieces.enum.map fun p => SplitLine.mk ln p.1 p.2) ++ rest)

/-- Gutter width computed by `update_contents` (src/contents.rs line 235):
decimal digit count of the logical line count of `original_contents`. -/
def gutterDigits (st : Contents) : Nat :=
  digitCount (rustLines st.original_contents).length

/-- The `line_width` computation of `update_contents` (src/contents.rs line
242): `self.width as usize - line_number_digits - line_number_space` with
`line_number_space = 1`.  Both `usize` subtractions are checked; `none`
models the unguarded underflow panic when the viewport is narrower than the
gutter plus its separating space. -/
def lineWidth? (st : Contents) : Option Nat :=
  (checkedSub st.width (gutterDigits st)).bind fun a => checkedSub a 1

/-- Body of `update_contents` once `line_width` is known: wrap every logical
line with `split_string_by_width(line, line_width as u16)` (the cast is the
`% 65536`) and push the tagged pieces onto `self.contents`.  Note the source
pushes onto the existing vector without clearing it first (line 258). -/
def updateWith (st : Contents) (lw : Nat) : Option Contents :=
  (buildSegs (lw % 65536) (rustLines st.original_contents) 1).map fun segs =>
    { st with contents := st.contents ++ segs }

/-- Contents::update_contents (src/contents.rs lines 233-263). -/
def updateContents (st : Contents) : Option Contents :=
  match lineWidth? st with
  | none => none
  | some lw => updateWith st lw

/-- Cursor clamp performed by `Contents::print` (src/contents.rs lines
148-163), after `update_contents` has run: the segment count is narrowed to
`u16` (`self.contents.len() as u16`), `cursor_y` is zeroed when the viewport
is taller than the layout, and otherwise capped at `len - height`.  The
clamped value is stored back into the state. -/
def clampCursor (st : Contents) : Contents :=
  let len := st.contents.length % 65536
  let cy := if len < st.height then 0 else st.cursor_y
  let maxC := if st.height < len then len - st.height else 0
  { st with cursor_y := if maxC < cy then maxC else cy }

/-- The gutter-width read in `Contents::print` (src/contents.rs lines
166-171): digit count of the `line_number` of the LAST element of
`self.contents`.  `none` models the `self.contents.len() - 1` indexing panic
on an empty segment list. -/
def lastLineNumberWidth (st : Contents) : Option Nat :=
  st.contents.getLast?.map fun sl => digitCount sl.line_number

example : updateContents (Contents.new "ab\nc".data 5 10 0 0 0 0) =
    some { Contents.new "ab\nc".data 5 10 0 0 0 0 with
           contents := [⟨1, 0, "ab".data⟩, ⟨2, 0, "c".data⟩] } := by decide

/-- Right-justify into a field of `w` columns, as `format!` with a width
specifier does (no truncation when the text is longer). -/
def padLeft (w : Nat) (cs : List Char) : List Char :=
  List.replicate (w - cs.length) ' ' ++ cs

/-- One logical line of the editor buffer built by `get_editor_contents`
(src/main.rs lines 277-299): the right-justified line number and a space,
the first wrapped piece (or nothing when the wrapper returned no pieces),
a newline, then every further piece behind `digits + 1` blank columns. -/
def editorLine (digits ln : Nat) (pieces : List (List Char)) : List Char :=
  padLeft digits (Nat.toDigits 10 ln) ++ [' '] ++
    (match pieces with
     | [] => ['\n']
     | p :: ps =>
       p ++ '\n' :: (ps.map fun q => List.replicate (digits + 1) ' ' ++ q ++ ['\n']).flatten)

/-- get_display_area (src/main.rs lines 400-413): the window
`[cursor, cursor + extent)` in both axes. -/
def getDisplayArea (w h cx cy : Nat) : Nat × Nat × Nat × Nat :=
  (cx, cy, cx + w, cy + h)

/-- get_editor_contents (src/main.rs lines 250-328): build the gutter-prefixed
wrapped buffer (using the `main.rs` wrapper), then crop it to the display
area and drop the final newline (`pop`).  `none` models the `usize`
underflow panic of `editor_area_width - digits - 1` (line 266). -/
def getEditorContents (contents : List Char) (w h cx cy : Nat) : Option (List Char) :=
  let ls := rustLines contents
  let digits := digitCount ls.length
  match (checkedSub w digits).bind fun a => checkedSub a 1 with
  | none => none
  | some lw =>
    let body := (ls.enum.map fun p => editorLine digits (p.1 + 1) (splitStringByWidthMain p.2 lw)).flatten
    match getDisplayArea w h cx cy with
    | (sx, sy, ex, ey) =>
      let cropped := (((rustLines body).drop sy).take (ey - sy)).map fun l =>
        ((l.drop sx).take (ex - sx)) ++ ['\n']
      some cropped.flatten.dropLast

example : getEditorContents "Alice\nBob\nCarol\nDave\nEve\nFrank\nGrace\nHeidi\nIvan".data 100 5 0 0 =
    some "1 Alice\n2 Bob\n3 Carol\n4 Dave\n5 Eve".data := by decide

/-- Input events of the render loop (src/main.rs lines 83-140), one
constructor per match arm.  `keyChar c ctrlOnly` is a `KeyEvent` whose code
is `Char c`, with `ctrlOnly` true exactly when the modifier set equals
`CONTROL`; `other` covers every remaining event the final `_ => {}` arm
swallows. -/
inductive Event where
  | keyChar (c : Char) (ctrlOnly : Bool)
  | keyUp
  | keyDown
  | focusGained
  | focusLost
  | mouse
  | paste
  | resize (w h : Nat)
  | other

/-- Outcome of one iteration of the render loop: leave the loop, repaint the
screen with a new scroll position (the payload is the string handed to
`print_screen`), or do nothing. -/
inductive StepResult where
  | quit
  | render (cursor_y : Nat) (screen : List Char)
  | noop
deriving DecidableEq

/-- Body of the event match in `main` (src/main.rs lines 83-140).  The
`FocusGained`, `FocusLost`, `Mouse`, `Paste` and `Resize` arms are `todo!()`
in the source, i.e. they panic — modelled as `none`. -/
def handleEvent (contents : List Char) (tw th cx cy : Nat) : Event → Option StepResult
  | .keyChar c ctrlOnly =>
    -- lines 84-91: only Char('w') with exactly CONTROL quits; any other
    -- character key falls through to the final `_ => {}` arm
    if c = 'w' ∧ ctrlOnly then some .quit else some .noop
  | .keyUp =>
    -- lines 93-111
    let cy1 := if cy = 0 then 0 else cy - 1
    match getEditorContents contents tw th cx cy1 with
    | none => none
    | some ec =>
      if (rustLines ec).length < th then
        let cy2 := if cy1 = 0 then 0 else cy1 + 1
        match getEditorContents contents tw th cx cy2 with
        | none => none
        | some ec2 => some (.render cy2 ec2)
      else some (.render cy1 ec)
  | .keyDown =>
    -- lines 113-131
    let cy1 := cy + 1
    match getEditorContents contents tw th cx cy1 with
    | none => none
    | some ec =>
      if (rustLines ec).length < th then
        let cy2 := cy1 - 1
        match getEditorContents contents tw th cx cy2 with
        | none => none
        | some ec2 => some (.render cy2 ec2)
      else some (.render cy1 ec)
  | .focusGained => none
  | .focusLost => none
  | .mouse => none
  | .paste => none
  | .resize _ _ => none
  | .other => some .noop

/-- StatusBarItem (src/status_bar.rs lines 11-16). -/
structure StatusBarItem where
  name : List Char
  value : List Char
deriving DecidableEq

/-- StatusBarItem::new (src/status_bar.rs lines 20-25): every newline in the
value is replaced by a single space. -/
def StatusBarItem.new (name value : List Char) : StatusBarItem :=
  ⟨name, value.map fun c => if c = '\n' then ' ' else c⟩

/-- StatusBar::add_item (src/status_bar.rs lines 53-63): scan the items in
order; the first one with the same name is overwritten in place and the scan
stops, otherwise the new item is appended at the end. -/
def addItem : List StatusBarItem → StatusBarItem → List StatusBarItem
  | [], it => [it]
  | x :: xs, it => if x.name = it.name then it :: xs else x :: addItem xs it

/-- The names of a status bar's items, in order. -/
def itemNames (l : List StatusBarItem) : List (List Char) :=
  l.map (·.name)

example : StatusBarItem.new "x".data "a\nb".data = ⟨"x".data, "a b".data⟩ := by decide

theorem escState_nil (b : Bool) : escState b [] = b := rfl

theorem escState_cons (b : Bool) (c : Char) (l : List Char) :
    escState b (c :: l) = escState (escStep b c) l := rfl

theorem escState_append (b : Bool) (a c : List Char) :
    escState b (a ++ c) = escState (escState b a) c := by
  simp [escState, List.foldl_append]

theorem stripGo_append (a : List Char) : ∀ (b : Bool) (c : List Char),
    stripGo b (a ++ c) = stripGo b a ++ stripGo (escState b a) c := by
  induction a with
  | nil => intro b c; simp [stripGo, escState]
  | cons x xs ih =>
    intro b c
    by_cases hx : x = '\x1b'
    · simp [stripGo, hx, ih, escState_cons, escStep]
    · by_cases hb : b
      · simp [stripGo, hx, hb, ih, escState_cons, escStep]
      · simp [stripGo, hx, hb, ih, escState_cons, escStep]

theorem dispWidth_append (a b : List Char) :
    dispWidth (a ++ b) = dispWidth a + dispWidth b := by
  simp [dispWidth]

theorem charWidth?_le_two (c : Char) (n : Nat) (h : charWidth? c = some n) : n ≤ 2 := by
  simp only [charWidth?] at h
  split_ifs at h <;> simp_all <;> omega

theorem splitLoop_join (w : Nat) : ∀ (cs cur : List Char) (cw : Nat) (esc : Bool)
    (r : List (List Char)), splitLoop w cs cur cw esc = some r → r.flatten = cur ++ cs := by
  intro cs
  induction cs with
  | nil =>
    intro cur cw esc r h
    simp only [splitLoop, Option.some.injEq] at h
    subst h
    simp
  | cons c rest ih =>
    intro cur cw esc r h
    simp only [splitLoop] at h
    by_cases hc : c = '\x1b'
    · rw [if_pos hc] at h
      have := ih _ _ _ _ h
      simp [this, hc]
    · rw [if_neg hc] at h
      by_cases he : esc
      · rw [if_pos he] at h
        have := ih _ _ _ _ h
        simp [this]
      · rw [if_neg he] at h
        cases hw : charWidth? c with
        | none => rw [hw] at h; simp at h
        | some wc =>
          rw [hw] at h
          dsimp only at h
          by_cases hlt : w < cw + wc
          · rw [if_pos hlt] at h
            rw [Option.map_eq_some'] at h
            obtain ⟨r', hr', rfl⟩ := h
            have := ih _ _ _ _ hr'
            simp [this]
          · rw [if_neg hlt] at h
            have := ih _ _ _ _ h
            simp [this]

theorem splitLoop_ne_nil (w : Nat) : ∀ (cs cur : List Char) (cw : Nat) (esc : Bool)
    (r : List (List Char)), splitLoop w cs cur cw esc = some r → r ≠ [] := by
  intro cs
  induction cs with
  | nil =>
    intro cur cw esc r h
    simp only [splitLoop, Option.some.injEq] at h
    subst h
    simp
  | cons c rest ih =>
    intro cur cw esc r h
    simp only [splitLoop] at h
    by_cases hc : c = '\x1b'
    · rw [if_pos hc] at h; exact ih _ _ _ _ h
    · rw [if_neg hc] at h
      by_cases he : esc
      · rw [if_pos he] at h; exact ih _ _ _ _ h
      · rw [if_neg he] at h
        cases hw : charWidth? c with
        | none => rw [hw] at h; simp at h
        | some wc =>
          rw [hw] at h
          dsimp only at h
          by_cases hlt : w < cw + wc
          · rw [if_pos hlt] at h
            rw [Option.map_eq_some'] at h
            obtain ⟨r', _, rfl⟩ := h
            simp
          · rw [if_neg hlt] at h; exact ih _ _ _ _ h

theorem stripGo_single_esc (b : Bool) : stripGo b ['\x1b'] = [] := by
  cases b <;> simp [stripGo]

theorem stripGo_single_inEsc (c : Char) : stripGo true [c] = [] := by
  by_cases h : c = '\x1b' <;> simp [stripGo, h]

theorem stripGo_single_normal (c : Char) (h : ¬c = '\x1b') : stripGo false [c] = [c] := by
  simp [stripGo, h]

theorem escState_single (b : Bool) (c : Char) : escState b [c] = escStep b c := rfl

theorem dispWidth_single (c : Char) : dispWidth [c] = (charWidth? c).getD 0 := by
  simp [dispWidth]

theorem splitLoop_width (w : Nat) : ∀ (cs cur : List Char) (cw : Nat) (esc : Bool)
    (r : List (List Char)), splitLoop w cs cur cw esc = some r →
    escState false cur = esc → dispWidth (stripGo false cur) = cw → cw ≤ max w 2 →
    ∀ seg ∈ r, dispWidth (stripGo false seg) ≤ max w 2 := by
  intro cs
  induction cs with
  | nil =>
    intro cur cw esc r h _ hcw hb seg hseg
    simp only [splitLoop, Option.some.injEq] at h
    subst h
    simp only [List.mem_singleton] at hseg
    subst hseg
    omega
  | cons c rest ih =>
    intro cur cw esc r h hesc hcw hb seg hseg
    simp only [splitLoop] at h
    by_cases hc : c = '\x1b'
    · rw [if_pos hc] at h
      refine ih _ _ _ _ h ?_ ?_ hb seg hseg
      · subst hc
        rw [escState_append, escState_single, escStep]
        simp
      · subst hc
        rw [stripGo_append, hesc]
        cases esc <;> simp [stripGo_single_esc, hcw, stripGo]
    · rw [if_neg hc] at h
      by_cases he : esc
      · rw [if_pos he] at h
        refine ih _ _ _ _ h ?_ ?_ hb seg hseg
        · rw [escState_append, escState_single, hesc, he]
          simp [escStep, hc]
        · rw [stripGo_append, hesc, he, stripGo_single_inEsc]
          simpa using hcw
      · rw [if_neg he] at h
        cases hw : charWidth? c with
        | none => rw [hw] at h; simp at h
        | some wc =>
          rw [hw] at h
          dsimp only at h
          have hesc' : escState false cur = false := by
            rw [hesc]; simp at he; exact he
          by_cases hlt : w < cw + wc
          · rw [if_pos hlt] at h
            rw [Option.map_eq_some'] at h
            obtain ⟨r', hr', rfl⟩ := h
            rcases List.mem_cons.mp hseg with hcur | hmem
            · subst hcur; rw [hcw]; exact hb
            · refine ih _ _ _ _ hr' ?_ ?_ ?_ seg hmem
              · rw [escState_single]; simp [escStep, hc]
              · rw [stripGo_single_normal c hc, dispWidth_single, hw]
                rfl
              · have := charWidth?_le_two c wc hw
                omega
          · rw [if_neg hlt] at h
            refine ih _ _ _ _ h ?_ ?_ ?_ seg hseg
            · rw [escState_append, hesc', escState_single]
              simp [escStep, hc]
            · rw [stripGo_append, hesc', stripGo_single_normal c hc,
                dispWidth_append, hcw, dispWidth_single, hw]
              rfl
            · omega

theorem splitLoop_boundary (w : Nat) : ∀ (cs cur : List Char) (cw : Nat) (esc : Bool)
    (r : List (List Char)), splitLoop w cs cur cw esc = some r →
    escState false cur = esc →
    ∀ k, k + 1 < r.length → escState false ((r.take (k + 1)).flatten) = false := by
  intro cs
  induction cs with
  | nil =>
    intro cur cw esc r h _ k hk
    simp only [splitLoop, Option.some.injEq] at h
    subst h
    simp at hk
  | cons c rest ih =>
    intro cur cw esc r h hesc k hk
    simp only [splitLoop] at h
    by_cases hc : c = '\x1b'
    · rw [if_pos hc] at h
      refine ih _ _ _ _ h ?_ k hk
      subst hc
      rw [escState_append, escState_single, escStep]
      simp
    · rw [if_neg hc] at h
      by_cases he : esc
      · rw [if_pos he] at h
        refine ih _ _ _ _ h ?_ k hk
        rw [escState_append, escState_single, hesc, he]
        simp [escStep, hc]
      · rw [if_neg he] at h
        cases hw : charWidth? c with
        | none => rw [hw] at h; simp at h
        | some wc =>
          rw [hw] at h
          dsimp only at h
          have hesc' : escState false cur = false := by
            rw [hesc]; simp at he; exact he
          by_cases hlt : w < cw + wc
          · rw [if_pos hlt] at h
            rw [Option.map_eq_some'] at h
            obtain ⟨r', hr', rfl⟩ := h
            cases k with
            | zero => simpa using hesc'
            | succ j =>
              have hflat : ((cur :: r').take (j + 1 + 1)).flatten =
                  cur ++ (r'.take (j + 1)).flatten := by
                simp
              rw [hflat, escState_append, hesc']
              refine ih _ _ _ _ hr' ?_ j ?_
              · rw [escState_single]; simp [escStep, hc]
              · simpa using hk
          · rw [if_neg hlt] at h
            refine ih _ _ _ _ h ?_ k hk
            rw [escState_append, hesc', escState_single]
            simp [escStep, hc]

theorem dispWidth_cons (c : Char) (l : List Char) :
    dispWidth (c :: l) = (charWidth? c).getD 0 + dispWidth l := by
  simp [dispWidth]

theorem mainPush_le (w : Nat) (cur : List Char) (c : Char) (wc : Nat)
    (hw : charWidth? c = some wc) (h : dispWidth cur ≤ w) :
    dispWidth (mainPush w cur c wc) ≤ w := by
  unfold mainPush
  split_ifs with hfit
  · rw [dispWidth_append, dispWidth_single, hw]
    exact hfit
  · exact h

theorem mainLoop_width (w : Nat) : ∀ (cs cur : List Char), dispWidth cur ≤ w →
    ∀ seg ∈ mainLoop w cs cur, dispWidth seg ≤ w := by
  intro cs
  induction cs with
  | nil =>
    intro cur _ seg hseg
    simp [mainLoop] at hseg
  | cons c rest ih =>
    intro cur hcur seg hseg
    simp only [mainLoop] at hseg
    cases hw : charWidth? c with
    | none =>
      rw [hw] at hseg
      exact ih cur hcur seg hseg
    | some wc =>
      rw [hw] at hseg
      dsimp only at hseg
      by_cases hflush : dispWidth (mainPush w cur c wc) = w ∨ rest = []
      · rw [if_pos hflush] at hseg
        rcases List.mem_cons.mp hseg with rfl | hmem
        · exact mainPush_le w cur c wc hw hcur
        · exact ih [] (by simp [dispWidth]) seg hmem
      · rw [if_neg hflush] at hseg
        cases rest with
        | nil => simp at hseg
        | cons d ds =>
          dsimp only at hseg
          cases hwd : charWidth? d with
          | none =>
            rw [hwd] at hseg
            exact ih _ (mainPush_le w cur c wc hw hcur) seg hseg
          | some wd =>
            rw [hwd] at hseg
            dsimp only at hseg
            by_cases hlt : w < dispWidth (mainPush w cur c wc) + wd
            · rw [if_pos hlt] at hseg
              rcases List.mem_cons.mp hseg with rfl | hmem
              · exact mainPush_le w cur c wc hw hcur
              · exact ih [] (by simp [dispWidth]) seg hmem
            · rw [if_neg hlt] at hseg
              exact ih _ (mainPush_le w cur c wc hw hcur) seg hseg

theorem dispWidth_stripGo_le : ∀ (l : List Char) (b : Bool),
    dispWidth (stripGo b l) ≤ dispWidth l := by
  intro l
  induction l with
  | nil => intro b; simp [stripGo]
  | cons c rest ih =>
    intro b
    rw [dispWidth_cons]
    by_cases hc : c = '\x1b'
    · simp only [stripGo, if_pos hc]
      calc dispWidth (stripGo true rest) ≤ dispWidth rest := ih true
        _ ≤ (charWidth? c).getD 0 + dispWidth rest := Nat.le_add_left _ _
    · by_cases hb : b
      · simp only [stripGo, if_neg hc, if_pos hb]
        calc dispWidth (stripGo (if c = 'm' then false else true) rest) ≤ dispWidth rest :=
              ih _
          _ ≤ (charWidth? c).getD 0 + dispWidth rest := Nat.le_add_left _ _
      · simp only [stripGo, if_neg hc, if_neg hb]
        rw [dispWidth_cons]
        exact Nat.add_le_add_left (ih false) _

theorem splitLoop_strip_join (w : Nat) : ∀ (cs cur : List Char) (cw : Nat) (esc : Bool)
    (r : List (List Char)), splitLoop w cs cur cw esc = some r →
    escState false cur = esc →
    (r.map (stripGo false)).flatten = stripGo false (cur ++ cs) := by
  intro cs
  induction cs with
  | nil =>
    intro cur cw esc r h _
    simp only [splitLoop, Option.some.injEq] at h
    subst h
    simp
  | cons c rest ih =>
    intro cur cw esc r h hesc
    simp only [splitLoop] at h
    by_cases hc : c = '\x1b'
    · rw [if_pos hc] at h
      have := ih _ _ _ _ h (by
        subst hc
        rw [escState_append, escState_single, escStep]
        simp)
      rw [this]
      simp
    · rw [if_neg hc] at h
      by_cases he : esc
      · rw [if_pos he] at h
        have := ih _ _ _ _ h (by
          rw [escState_append, escState_single, hesc, he]
          simp [escStep, hc])
        rw [this]
        simp
      · rw [if_neg he] at h
        cases hw : charWidth? c with
        | none => rw [hw] at h; simp at h
        | some wc =>
          rw [hw] at h
          dsimp only at h
          have hesc' : escState false cur = false := by
            rw [hesc]; simp at he; exact he
          by_cases hlt : w < cw + wc
          · rw [if_pos hlt] at h
            rw [Option.map_eq_some'] at h
            obtain ⟨r', hr', rfl⟩ := h
            have hstrip := ih _ _ _ _ hr' (by rw [escState_single]; simp [escStep, hc])
            have h1 : stripGo false (cur ++ c :: rest) =
                stripGo false cur ++ stripGo false (c :: rest) := by
              rw [stripGo_append, hesc']
            simp only [List.map_cons, List.flatten_cons, hstrip, h1]
            rfl
          · rw [if_neg hlt] at h
            have := ih _ _ _ _ h (by
              rw [escState_append, hesc', escState_single]
              simp [escStep, hc])
            rw [this]
            simp

theorem buildSegs_ne_nil (w : Nat) (l : List Char) (ls : List (List Char)) (ln : Nat)
    (segs : List SplitLine) (h : buildSegs w (l :: ls) ln = some segs) : segs ≠ [] := by
  simp only [buildSegs] at h
  cases hp : splitStringByWidth l w with
  | none => rw [hp] at h; simp at h
  | some pieces =>
    rw [hp] at h
    dsimp only at h
    cases hr : buildSegs w ls (ln + 1) with
    | none => rw [hr] at h; simp at h
    | some rest =>
      rw [hr] at h
      dsimp only at h
      have hsegs : (pieces.enum.map fun p => SplitLine.mk ln p.1 p.2) ++ rest = segs := by
        simpa using h
      have hpieces : pieces ≠ [] := splitLoop_ne_nil w l [] 0 false pieces hp
      intro hnil
      rw [hnil] at hsegs
      rcases List.append_eq_nil.mp hsegs with ⟨hmap, _⟩
      rw [List.map_eq_nil_iff] at hmap
      exact hpieces (by simpa using hmap)

theorem updateContents_eq (st st' : Contents) (h : updateContents st = some st') :
    ∃ lw segs, lineWidth? st = some lw ∧
      buildSegs (lw % 65536) (rustLines st.original_contents) 1 = some segs ∧
      st' = { st with contents := st.contents ++ segs } := by
  unfold updateContents at h
  cases hlw : lineWidth? st with
  | none => rw [hlw] at h; simp at h
  | some lw =>
    rw [hlw] at h
    dsimp only at h
    unfold updateWith at h
    rw [Option.map_eq_some'] at h
    obtain ⟨segs, hsegs, rfl⟩ := h
    exact ⟨lw, segs, rfl, hsegs, rfl⟩

theorem addItem_of_not_mem : ∀ (l : List StatusBarItem) (it : StatusBarItem),
    ¬ it.name ∈ itemNames l → addItem l it = l ++ [it] := by
  intro l it
  induction l with
  | nil => intro _; rfl
  | cons x xs ih =>
    intro h
    simp only [itemNames, List.map_cons, List.mem_cons] at h
    push_neg at h
    obtain ⟨h1, h2⟩ := h
    have hx : ¬ x.name = it.name := fun hh => h1 hh.symm
    simp only [addItem, if_neg hx]
    rw [ih (by simpa [itemNames] using h2)]
    rfl

theorem addItem_names_of_mem : ∀ (l : List StatusBarItem) (it : StatusBarItem),
    it.name ∈ itemNames l → itemNames (addItem l it) = itemNames l := by
  intro l it
  induction l with
  | nil => intro h; simp [itemNames] at h
  | cons x xs ih =>
    intro h
    by_cases hx : x.name = it.name
    · simp [addItem, if_pos hx, itemNames, hx]
    · simp only [itemNames, List.map_cons, List.mem_cons] at h
      rcases h with h | h
      · exact absurd h.symm hx
      · simp only [addItem, if_neg hx, itemNames, List.map_cons]
        have := ih (by simpa [itemNames] using h)
        simp only [itemNames] at this
        rw [this]

theorem addItem_find : ∀ (l : List StatusBarItem) (it : StatusBarItem),
    (addItem l it).find? (fun x => decide (x.name = it.name)) = some it := by
  intro l it
  induction l with
  | nil => simp [addItem, List.find?]
  | cons x xs ih =>
    by_cases hx : x.name = it.name
    · simp [addItem, if_pos hx, List.find?]
    · simp only [addItem, if_neg hx]
      rw [List.find?_cons_of_neg _ (by simpa using hx)]
      exact ih

theorem addItem_names_nodup (l : List StatusBarItem) (it : StatusBarItem)
    (hnd : (itemNames l).Nodup) : (itemNames (addItem l it)).Nodup := by
  by_cases hm : it.name ∈ itemNames l
  · rw [addItem_names_of_mem l it hm]
    exact hnd
  · rw [addItem_of_not_mem l it hm]
    have : itemNames (l ++ [it]) = itemNames l ++ [it.name] := by simp [itemNames]
    rw [this, List.nodup_append]
    refine ⟨hnd, by simp, ?_⟩
    intro a ha hb
    simp only [List.mem_singleton] at hb
    subst hb
    exact hm ha

theorem foldl_addItem_nodup : ∀ (its acc : List StatusBarItem),
    (itemNames acc).Nodup → (itemNames (its.foldl addItem acc)).Nodup := by
  intro its
  induction its with
  | nil => intro acc h; exact h
  | cons x xs ih =>
    intro acc h
    exact ih _ (addItem_names_nodup acc x h)

theorem stripEscapes_def : stripEscapes = stripGo false := rfl

/-- C1: the lossless-wrap property as stated — quantified over every string
and width for the wrapper `split_string_by_width` — fails for the `main.rs`
implementation of that wrapper: at width 1 the single wide character of
`"世"` is dropped (it never fits the budget), so the concatenation of the
returned segments, with escape sequences removed, does not reproduce the
input with escape sequences removed. -/
theorem C1_counterexample :
    ((splitStringByWidthMain "世".data 1).map stripEscapes).flatten ≠
      stripEscapes "世".data := by decide

/-- C1 (amended): for `Contents::split_string_by_width`, whenever the wrapper
returns at all (it panics on undefined-width characters, see C5),
concatenating the returned segments reproduces `s` exactly — hence in
particular with escape sequences removed on both sides.  No characters are
added, dropped, or reordered. -/
theorem C1_lossless_wrap (s : List Char) (w : Nat) (_hw : 0 < w)
    (segs : List (List Char)) (h : splitStringByWidth s w = some segs) :
    (segs.map stripEscapes).flatten = stripEscapes s ∧ segs.flatten = s := by
  rw [stripEscapes_def]
  constructor
  · simpa using splitLoop_strip_join w s [] 0 false segs h rfl
  · simpa using splitLoop_join w s [] 0 false segs h

theorem C1_witness :
    ((["Hello".data, ", wor".data, "ld!".data]).map stripEscapes).flatten =
        stripEscapes "Hello, world!".data ∧
      (["Hello".data, ", wor".data, "ld!".data]).flatten = "Hello, world!".data :=
  C1_lossless_wrap "Hello, world!".data 5 (by decide) _ (by decide)

/-- C2: the width bound as stated fails for `Contents::split_string_by_width`:
at width 1 the wrapper flushes an empty segment and then emits `"世"` as a
segment whose escape-stripped display width is 2 > 1 (a single character
wider than the budget forms an over-width segment by design, spec §4.2). -/
theorem C2_counterexample :
    splitStringByWidth "世".data 1 = some [[], "世".data] ∧
      ¬ dispWidth (stripEscapes "世".data) ≤ 1 := by decide

/-- C2 (amended): every segment of `Contents::split_string_by_width`, with
escape sequences stripped, has display width at most `max w 2`: at most `w`
except that a single character wider than `w` forms its own over-width
segment (character widths never exceed 2, so for `w ≥ 2` the bound is `w`).
The `main.rs` wrapper keeps the strict bound `w` — by dropping characters
instead of emitting them. -/
theorem C2_width_bound (s : List Char) (w : Nat) (_hw : 0 < w) :
    (∀ segs, splitStringByWidth s w = some segs →
      ∀ seg ∈ segs, dispWidth (stripEscapes seg) ≤ max w 2) ∧
    (∀ seg ∈ splitStringByWidthMain s w, dispWidth (stripEscapes seg) ≤ w) := by
  constructor
  · intro segs h seg hseg
    rw [stripEscapes_def]
    exact splitLoop_width w s [] 0 false segs h rfl (by simp [dispWidth, stripGo])
      (by omega) seg hseg
  · intro seg hseg
    calc dispWidth (stripEscapes seg) ≤ dispWidth seg := by
          rw [stripEscapes_def]; exact dispWidth_stripGo_le seg false
      _ ≤ w := mainLoop_width w s [] (by simp [dispWidth]) seg hseg

theorem C2_witness : dispWidth (stripEscapes ", 世".data) ≤ max 5 2 :=
  (C2_width_bound "Hello, 世界!".data 5 (by decide)).1
    ["Hello".data, ", 世".data, "界!".data] (by decide) ", 世".data (by decide)

/-- C5: the claim fails on both wrappers.  `Contents::split_string_by_width`
panics — `c.width().unwrap()` on a TAB (modelled `none`) — rather than
treating the character as zero-width, and the `main.rs` wrapper silently
drops the TAB from `"a\tb"` rather than passing it through verbatim. -/
theorem C5_counterexample :
    splitStringByWidth "\t".data 5 = none ∧
      splitStringByWidthMain "a\tb".data 5 = ["ab".data] := by decide

/-- C5 (amended): a character with no defined display width encountered
outside an escape sequence is not handled as contributing 0 columns:
`Contents::split_string_by_width` panics on it, and the `main.rs` wrapper
skips it, dropping it from the output. -/
theorem C5_undefined_width (w : Nat) (c : Char) (hnone : charWidth? c = none)
    (hesc : ¬c = '\x1b') :
    splitStringByWidth [c] w = none ∧ splitStringByWidthMain [c] w = [] := by
  constructor
  · simp [splitStringByWidth, splitLoop, hesc, hnone]
  · simp [splitStringByWidthMain, mainLoop, hnone]

theorem C5_witness :
    splitStringByWidth ['\t'] 5 = none ∧ splitStringByWidthMain ['\t'] 5 = [] :=
  C5_undefined_width 5 '\t' (by decide) (by decide)

/-- C6: escape atomicity for `Contents::split_string_by_width` (the wrapper
that recognises escapes): after the first `k + 1` segments of any successful
result, the escape recogniser is back in the NORMAL state.  A segment
boundary lying strictly inside an escape sequence (after its ESC, before its
terminating 'm') would leave the recogniser in-escape on that concatenated
prefix, so no boundary is ever placed inside an escape sequence. -/
theorem C6_escape_atomicity (s : List Char) (w : Nat) (_hw : 0 < w)
    (segs : List (List Char)) (h : splitStringByWidth s w = some segs) :
    ∀ k, k + 1 < segs.length →
      escState false ((segs.take (k + 1)).flatten) = false :=
  splitLoop_boundary w s [] 0 false segs h rfl

theorem C6_witness :
    escState false
      (([ "\x1b[31mHello".data, ", wor".data, "ld!\x1b[0m".data ].take 1).flatten) = false :=
  C6_escape_atomicity "\x1b[31mHello, world!\x1b[0m".data 5 (by decide) _ (by decide)
    0 (by decide)

/-- C3: evaluation at a concrete state refutes full-rebuild semantics:
`update_contents` pushes the recomputed segments onto `self.contents` without
clearing it first (contents.rs line 258), so calling it a second time with
unchanged parameters duplicates every segment instead of leaving the list
equal to a single call's layout. -/
theorem C3_update_appends :
    ((updateContents (Contents.new "a".data 3 1 0 0 0 0)).map fun st => st.contents) =
        some [⟨1, 0, "a".data⟩] ∧
      (((updateContents (Contents.new "a".data 3 1 0 0 0 0)).bind updateContents).map
          fun st => st.contents) =
        some [⟨1, 0, "a".data⟩, ⟨1, 0, "a".data⟩] := by decide

/-- C4: the clamp law as stated fails at a layout of exactly 65536 segments:
`self.contents.len() as u16` wraps to 0, so a requested `cursor_y = 10` is
forced to 0 although `min 10 (65536 - 5) = 10`. -/
theorem C4_counterexample :
    (clampCursor ⟨[], List.replicate 65536 ⟨1, 0, []⟩, 80, 5, 0, 0, 0, 10⟩).cursor_y ≠
      min 10 (65536 - 5) := by
  have key : ∀ l : List SplitLine, l.length = 65536 →
      (clampCursor ⟨[], l, 80, 5, 0, 0, 0, 10⟩).cursor_y = 0 := by
    intro l hl
    simp only [clampCursor, hl]
    norm_num
  rw [key _ (List.length_replicate 65536 _)]
  norm_num

/-- C4 (amended): for a layout whose segment count is below 2^16 (the count is
narrowed to u16 by the source), the clamp step of print() stores back exactly
`min (requested cursor_y) (max 0 (N - h))` — in particular `0` whenever
`N ≤ h`, and `N - h` for any request at or beyond `N - h`. -/
theorem C4_clamp_law (st : Contents) (h : st.contents.length < 65536) :
    (clampCursor st).cursor_y = min st.cursor_y (st.contents.length - st.height) := by
  simp only [clampCursor]
  rw [Nat.mod_eq_of_lt h]
  split_ifs <;> omega

theorem C4_witness :
    (clampCursor ⟨[], [⟨1, 0, []⟩, ⟨1, 0, []⟩, ⟨1, 0, []⟩], 80, 1, 0, 0, 0, 5⟩).cursor_y =
      min 5 (3 - 1) :=
  C4_clamp_law _ (by decide)

/-- C7: the claim that update fails explicitly whenever the viewport leaves no
positive wrap width is refuted at `width = 2` with a one-line document: the
gutter takes one column and the separating space another, leaving wrap width
0 — not positive — yet `update_contents` proceeds and produces segments
instead of failing. -/
theorem C7_counterexample :
    updateContents (Contents.new "a".data 2 5 0 0 0 0) =
      some { Contents.new "a".data 2 5 0 0 0 0 with
             contents := [⟨1, 0, []⟩, ⟨1, 1, "a".data⟩] } := by decide

/-- C7 (amended): update computes the gutter as the decimal digit count of the
logical line count and passes wrap width `width − gutter − 1` to the wrapper;
but when `width < gutter + 1` the usize subtraction underflows and update
panics (modelled `none`) — no explicit configuration error is produced — and
when `width = gutter + 1` it proceeds with wrap width 0. -/
theorem C7_line_width (st : Contents) :
    (st.width < gutterDigits st + 1 → updateContents st = none) ∧
    (gutterDigits st + 1 ≤ st.width →
      updateContents st = updateWith st (st.width - gutterDigits st - 1)) := by
  have hlw : lineWidth? st = if gutterDigits st + 1 ≤ st.width
      then some (st.width - gutterDigits st - 1) else none := by
    by_cases h1 : gutterDigits st ≤ st.width
    · by_cases h2 : 1 ≤ st.width - gutterDigits st
      · simp only [lineWidth?, checkedSub, if_pos h1, Option.some_bind, if_pos h2]
        rw [if_pos (by omega)]
      · simp only [lineWidth?, checkedSub, if_pos h1, Option.some_bind, if_neg h2]
        rw [if_neg (by omega)]
    · simp only [lineWidth?, checkedSub, if_neg h1, Option.none_bind]
      rw [if_neg (by omega)]
  constructor
  · intro h
    unfold updateContents
    rw [hlw, if_neg (by omega)]
  · intro h
    unfold updateContents
    rw [hlw, if_pos h]

theorem C7_witness : updateContents (Contents.new "a".data 1 5 0 0 0 0) = none :=
  (C7_line_width (Contents.new "a".data 1 5 0 0 0 0)).1 (by decide)

/-- C8: a concrete terminal-resize event is not acted upon by re-running the
layout update and render: the `Resize` arm of the event match is `todo!()`,
which panics (modelled `none`). -/
theorem C8_counterexample :
    handleEvent "a".data 80 24 0 0 (Event.resize 120 40) = none := rfl

/-- C8 (amended): every resize event makes the event loop panic through the
`todo!()` arm — it is aborted, never handled by re-running update()/print()
with the new dimensions. -/
theorem C8_resize_panics (contents : List Char) (tw th cx cy w h : Nat) :
    handleEvent contents tw th cx cy (Event.resize w h) = none := rfl

/-- C9: StatusBar::add_item appends an unseen name at the end; an existing
name keeps the name sequence (hence every item's position and the item
count) unchanged while the first item found under that name carries the new
value; and any item list built from the empty status bar by add_item calls
has pairwise-distinct names. -/
theorem C9_add_item :
    (∀ (l : List StatusBarItem) (it : StatusBarItem), ¬ it.name ∈ itemNames l →
      addItem l it = l ++ [it]) ∧
    (∀ (l : List StatusBarItem) (it : StatusBarItem), it.name ∈ itemNames l →
      itemNames (addItem l it) = itemNames l ∧ (addItem l it).length = l.length) ∧
    (∀ (l : List StatusBarItem) (it : StatusBarItem),
      (addItem l it).find? (fun x => decide (x.name = it.name)) = some it) ∧
    (∀ its : List StatusBarItem, (itemNames (its.foldl addItem [])).Nodup) := by
  refine ⟨addItem_of_not_mem, ?_, addItem_find,
    fun its => foldl_addItem_nodup its [] (by simp [itemNames])⟩
  intro l it hm
  refine ⟨addItem_names_of_mem l it hm, ?_⟩
  have hlen := congrArg List.length (addItem_names_of_mem l it hm)
  simpa [itemNames] using hlen

theorem C9_witness :
    itemNames (addItem [(⟨"a".data, "1".data⟩ : StatusBarItem), ⟨"b".data, "2".data⟩]
        ⟨"a".data, "9".data⟩) =
      itemNames [(⟨"a".data, "1".data⟩ : StatusBarItem), ⟨"b".data, "2".data⟩] :=
  (C9_add_item.2.1 _ _ (by decide)).1

/-- C10: whenever the document has at least one logical line, every successful
update produces a nonempty segment list (the wrapper returns at least one
piece per line), so the last-element read in print()'s gutter-width
computation is in bounds; on an empty document with a fresh engine the
segment list stays empty and that access has no valid index (its `len - 1`
subscript panics). -/
theorem C10_nonempty_layout :
    (∀ (s : List Char) (w : Nat) (segs : List (List Char)),
      splitStringByWidth s w = some segs → segs ≠ []) ∧
    (∀ st st' : Contents, ¬ rustLines st.original_contents = [] →
      updateContents st = some st' → (lastLineNumberWidth st').isSome = true) ∧
    (∀ st st' : Contents, rustLines st.original_contents = [] → st.contents = [] →
      updateContents st = some st' → lastLineNumberWidth st' = none) := by
  refine ⟨fun s w segs h => splitLoop_ne_nil w s [] 0 false segs h, ?_, ?_⟩
  · intro st st' hne hupd
    obtain ⟨lw, segs, hlw, hsegs, rfl⟩ := updateContents_eq st st' hupd
    cases hls : rustLines st.original_contents with
    | nil => exact absurd hls hne
    | cons l ls =>
      rw [hls] at hsegs
      have hsege : segs ≠ [] := buildSegs_ne_nil _ l ls 1 segs hsegs
      have hne2 : st.contents ++ segs ≠ [] := by
        intro hnil
        exact hsege (List.append_eq_nil.mp hnil).2
      have hsome : (st.contents ++ segs).getLast?.isSome :=
        List.getLast?_isSome.mpr hne2
      obtain ⟨x, hx⟩ := Option.isSome_iff_exists.mp hsome
      simp [lastLineNumberWidth, hx]
  · intro st st' hls hc hupd
    obtain ⟨lw, segs, hlw, hsegs, rfl⟩ := updateContents_eq st st' hupd
    rw [hls] at hsegs
    simp only [buildSegs, Option.some.injEq] at hsegs
    simp [lastLineNumberWidth, hc, ← hsegs]

theorem C10_witness :
    (lastLineNumberWidth { Contents.new "a".data 3 1 0 0 0 0 with
        contents := [⟨1, 0, "a".data⟩] }).isSome = true :=
  C10_nonempty_layout.2.1 (Contents.new "a".data 3 1 0 0 0 0) _ (by decide) (by decide)

end Edoc
